import Mathlib

/-!
Verification of the RSI Telegram bot (src/src/index.ts).

The source is a single TypeScript file.  Its pure core is embedded here:

* `calculateRSI` (source lines 115-152): Wilder RSI over rational prices
  (JavaScript numbers are modelled as `ℚ`; on the branches the theorems
  below cover, the float computation is exact).
* `shouldSendAlert` (lines 178-192): the alert policy, with `Date.now()`
  passed in as an explicit `now : ℤ` (milliseconds).
* `getCurrentRSI` (lines 158-170): the per-cycle indicator reading, with
  the Binance fetch replaced by an explicit kline list and `parseFloat`
  by an explicit parser argument.
* `sendRSIAlert` (lines 200-239): the dispatch, with each
  `bot.sendMessage` call's success decided by an oracle `ℕ → Bool`
  indexed by call order (each awaited send may independently throw).
* the command handlers (`/start`, `/set_oversold`, `/set_overbought`,
  `/toggle`, `/add_channel`, `/remove_channel`): a transition system on
  the in-memory `userConfigs` map, modelled as `ℤ → Option UserConfig`.
-/

/-- `ALERT_COOLDOWN` (line 45): 5 minutes in milliseconds. -/
def ALERT_COOLDOWN : ℤ := 300000

/-- `RSI_PERIOD` (line 43). -/
def RSI_PERIOD : ℕ := 14

/-- `rsiThresholds` field of `UserConfig` (lines 25-28). -/
structure RSIThresholds where
  oversold : ℚ
  overbought : ℚ
  deriving DecidableEq, Repr

/-- `UserConfig` (lines 23-32). -/
structure UserConfig where
  chatId : ℤ
  rsiThresholds : RSIThresholds
  alertsEnabled : Bool
  lastAlertTime : ℤ
  channels : List String
  deriving DecidableEq, Repr

/-- `RSIData` (lines 34-38). -/
structure RSIData where
  value : ℚ
  timestamp : ℤ
  price : ℚ
  deriving DecidableEq, Repr

/-- `KlineData` (lines 8-21); `open` is a Lean keyword, hence `openPrice`. -/
structure KlineData where
  openTime : ℤ
  openPrice : String
  high : String
  low : String
  close : String
  volume : String
  closeTime : ℤ
  quoteAssetVolume : String
  numberOfTrades : ℤ
  takerBuyBaseAssetVolume : String
  takerBuyQuoteAssetVolume : String
  ignore : String
  deriving DecidableEq, Repr

/-- JavaScript `Math.round`: round half toward positive infinity. -/
def jsRound (q : ℚ) : ℤ := ⌊q + 1/2⌋

/-- `Math.round(rsi * 100) / 100` (line 151). -/
def jsRound2 (q : ℚ) : ℚ := (jsRound (q * 100) : ℚ) / 100

/-- Consecutive differences `prices[i] - prices[i-1]` (loop of lines 124-128). -/
def diffs : List ℚ → List ℚ
  | a :: b :: rest => (b - a) :: diffs (b :: rest)
  | _ => []

/-- `difference > 0 ? difference : 0` (line 126). -/
def gainOf (d : ℚ) : ℚ := if 0 < d then d else 0

/-- `difference < 0 ? Math.abs(difference) : 0` (line 127). -/
def lossOf (d : ℚ) : ℚ := if d < 0 then |d| else 0

/-- One smoothing step `(avg * (period - 1) + current) / period` (lines 139-140). -/
def wilderStep (period : ℕ) (avg x : ℚ) : ℚ := (avg * ((period : ℚ) - 1) + x) / (period : ℚ)

/-- The smoothing loop of lines 138-141, folded over the post-seed values. -/
def wilderSmooth (period : ℕ) (init : ℚ) (xs : List ℚ) : ℚ := xs.foldl (wilderStep period) init

/-- `calculateRSI` (lines 115-152).  The `throw` of line 117 becomes
`Except.error "InsufficientData"`.  Faithful to the source for `1 ≤ period`
(the source only calls it with the default period 14; for `period = 0` the
JavaScript would produce `NaN`, which `ℚ` cannot represent). -/
def calculateRSI (prices : List ℚ) (period : ℕ) : Except String ℚ :=
  if prices.length < period + 1 then
    Except.error "InsufficientData"
  else
    let gains := (diffs prices).map gainOf
    let losses := (diffs prices).map lossOf
    let initialAvgGain := (gains.take period).sum / (period : ℚ)
    let initialAvgLoss := (losses.take period).sum / (period : ℚ)
    let avgGain := wilderSmooth period initialAvgGain (gains.drop period)
    let avgLoss := wilderSmooth period initialAvgLoss (losses.drop period)
    if avgLoss = 0 then
      Except.ok 100
    else
      let rs := avgGain / avgLoss
      let rsi := 100 - (100 / (1 + rs))
      Except.ok (jsRound2 rsi)

/-- `getCurrentRSI` (lines 158-170): maps the klines' close strings through
the numeric parser, runs `calculateRSI`, and pairs the result with
`closePrices[closePrices.length - 1]` as the current price.  The kline list
stands for the answer of `getBinanceKlines`, `parseFloat` for JavaScript's
parser, `now` for `Date.now()`. -/
def getCurrentRSI (parseFloat : String → ℚ) (klines : List KlineData) (now : ℤ) :
    Except String RSIData :=
  let closePrices := klines.map (fun kline => parseFloat kline.close)
  match calculateRSI closePrices RSI_PERIOD with
  | Except.error e => Except.error e
  | Except.ok rsiValue =>
      Except.ok { value := rsiValue, timestamp := now,
                  price := closePrices.getD (closePrices.length - 1) 0 }

/-- `shouldSendAlert` (lines 178-192); `now` stands for `Date.now()`. -/
def shouldSendAlert (userConfig : UserConfig) (rsiData : RSIData) (now : ℤ) : Bool :=
  if !userConfig.alertsEnabled then false
  else
    let timeSinceLastAlert := now - userConfig.lastAlertTime
    if timeSinceLastAlert < ALERT_COOLDOWN then false
    else
      let isOversold := decide (rsiData.value ≤ userConfig.rsiThresholds.oversold)
      let isOverbought := decide (rsiData.value ≥ userConfig.rsiThresholds.overbought)
      isOversold || isOverbought

/-- C1: `shouldAlert` returns true iff alerts are enabled, at least the
300000 ms cooldown has elapsed since the last alert, and the reading is at
or below the oversold threshold or at or above the overbought threshold. -/
theorem shouldSendAlert_spec (userConfig : UserConfig) (rsiData : RSIData) (now : ℤ) :
    shouldSendAlert userConfig rsiData now = true ↔
      (userConfig.alertsEnabled = true ∧
       ALERT_COOLDOWN ≤ now - userConfig.lastAlertTime ∧
       (rsiData.value ≤ userConfig.rsiThresholds.oversold ∨
        rsiData.value ≥ userConfig.rsiThresholds.overbought)) := by
  cases h : userConfig.alertsEnabled <;>
    simp [shouldSendAlert, h, not_lt]

lemma calculateRSI_ok_of_length (prices : List ℚ) (period : ℕ)
    (h : period + 1 ≤ prices.length) : ∃ v, calculateRSI prices period = Except.ok v := by
  simp only [calculateRSI, if_neg (show ¬ prices.length < period + 1 by omega)]
  split
  · exact ⟨100, rfl⟩
  · exact ⟨_, rfl⟩

/-- C4: `calculateRSI` fails with the insufficient-data error exactly when
fewer than `period + 1` prices are supplied; with at least `period + 1`
prices it returns a value and raises no error. -/
theorem calculateRSI_insufficient_spec (prices : List ℚ) (period : ℕ) :
    (calculateRSI prices period = Except.error "InsufficientData" ↔
      prices.length < period + 1) ∧
    (period + 1 ≤ prices.length → ∃ v, calculateRSI prices period = Except.ok v) := by
  refine ⟨⟨?_, ?_⟩, calculateRSI_ok_of_length prices period⟩
  · intro h
    by_contra hlen
    obtain ⟨v, hv⟩ := calculateRSI_ok_of_length prices period (by omega)
    rw [hv] at h
    exact Except.noConfusion h
  · intro hlen
    simp [calculateRSI, if_pos hlen]

lemma diffs_nil : diffs [] = [] := rfl

lemma diffs_single (a : ℚ) : diffs [a] = [] := rfl

lemma diffs_cons_cons (a b : ℚ) (rest : List ℚ) :
    diffs (a :: b :: rest) = (b - a) :: diffs (b :: rest) := rfl

lemma diffs_length (prices : List ℚ) : (diffs prices).length = prices.length - 1 := by
  induction prices with
  | nil => rfl
  | cons a tl ih =>
    cases tl with
    | nil => rfl
    | cons b rest =>
      simp only [diffs_cons_cons, List.length_cons] at ih ⊢
      omega

lemma diffs_pos_of_chain (prices : List ℚ) (h : prices.Chain' (· < ·)) :
    ∀ d ∈ diffs prices, 0 < d := by
  induction prices with
  | nil => intro d hd; rw [diffs_nil] at hd; exact absurd hd (List.not_mem_nil d)
  | cons a tl ih =>
    cases tl with
    | nil => intro d hd; rw [diffs_single] at hd; exact absurd hd (List.not_mem_nil d)
    | cons b rest =>
      rw [List.chain'_cons] at h
      intro d hd
      rw [diffs_cons_cons] at hd
      rcases List.mem_cons.mp hd with rfl | hd2
      · linarith [h.1]
      · exact ih h.2 d hd2

lemma diffs_neg_of_chain (prices : List ℚ) (h : prices.Chain' (· > ·)) :
    ∀ d ∈ diffs prices, d < 0 := by
  induction prices with
  | nil => intro d hd; rw [diffs_nil] at hd; exact absurd hd (List.not_mem_nil d)
  | cons a tl ih =>
    cases tl with
    | nil => intro d hd; rw [diffs_single] at hd; exact absurd hd (List.not_mem_nil d)
    | cons b rest =>
      rw [List.chain'_cons] at h
      intro d hd
      rw [diffs_cons_cons] at hd
      rcases List.mem_cons.mp hd with rfl | hd2
      · have : a > b := h.1
        linarith
      · exact ih h.2 d hd2

lemma lossOf_eq_zero_of_pos {d : ℚ} (h : 0 < d) : lossOf d = 0 := by
  rw [lossOf, if_neg (by linarith)]

lemma gainOf_eq_zero_of_neg {d : ℚ} (h : d < 0) : gainOf d = 0 := by
  rw [gainOf, if_neg (by linarith)]

lemma lossOf_pos_of_neg {d : ℚ} (h : d < 0) : 0 < lossOf d := by
  rw [lossOf, if_pos h]
  exact abs_pos.mpr (by linarith)

lemma wilderSmooth_nil (period : ℕ) (init : ℚ) : wilderSmooth period init [] = init := rfl

lemma wilderSmooth_cons (period : ℕ) (init x : ℚ) (xs : List ℚ) :
    wilderSmooth period init (x :: xs) = wilderSmooth period (wilderStep period init x) xs := rfl

lemma wilderSmooth_zero (period : ℕ) :
    ∀ xs : List ℚ, (∀ x ∈ xs, x = 0) → wilderSmooth period 0 xs = 0 := by
  intro xs
  induction xs with
  | nil => intro _; rfl
  | cons a tl ih =>
    intro h
    rw [wilderSmooth_cons]
    have ha : a = 0 := h a (List.mem_cons_self a tl)
    have hstep : wilderStep period 0 a = 0 := by
      simp [wilderStep, ha]
    rw [hstep]
    exact ih (fun x hx => h x (List.mem_cons_of_mem a hx))

lemma wilderSmooth_pos (period : ℕ) (hp : 1 ≤ period) :
    ∀ (xs : List ℚ) (init : ℚ), 0 < init → (∀ x ∈ xs, 0 < x) →
      0 < wilderSmooth period init xs := by
  intro xs
  induction xs with
  | nil =>
    intro init h0 _
    simpa [wilderSmooth_nil] using h0
  | cons a tl ih =>
    intro init h0 h
    rw [wilderSmooth_cons]
    apply ih
    · rw [wilderStep]
      apply div_pos
      · have h1 : (0:ℚ) ≤ init * ((period:ℚ) - 1) := by
          apply mul_nonneg (le_of_lt h0)
          have hcast : (1:ℚ) ≤ (period:ℚ) := by exact_mod_cast hp
          linarith
        have h2 : 0 < a := h a (List.mem_cons_self a tl)
        linarith
      · have hp' : 0 < period := hp
        exact_mod_cast hp'
    · exact fun x hx => h x (List.mem_cons_of_mem a hx)

/-- C5: on a strictly increasing price sequence of length at least
`period + 1`, every loss is 0, so the final average loss is 0 and
`calculateRSI` takes the `avgLoss == 0` branch, returning exactly 100
with no division by zero. -/
theorem calculateRSI_increasing (prices : List ℚ) (period : ℕ)
    (hp : 1 ≤ period) (hlen : period + 1 ≤ prices.length)
    (hmono : prices.Chain' (· < ·)) :
    calculateRSI prices period = Except.ok 100 := by
  have hd : ∀ d ∈ diffs prices, 0 < d := diffs_pos_of_chain prices hmono
  have hlosses : ∀ x ∈ (diffs prices).map lossOf, x = 0 := by
    intro x hx
    rcases List.mem_map.mp hx with ⟨d, hdmem, rfl⟩
    exact lossOf_eq_zero_of_pos (hd d hdmem)
  have hsum : (((diffs prices).map lossOf).take period).sum = 0 :=
    List.sum_eq_zero (fun x hx => hlosses x (List.mem_of_mem_take hx))
  have havg : wilderSmooth period
      ((((diffs prices).map lossOf).take period).sum / (period : ℚ))
      (((diffs prices).map lossOf).drop period) = 0 := by
    rw [hsum, zero_div]
    exact wilderSmooth_zero period _ (fun x hx => hlosses x (List.mem_of_mem_drop hx))
  simp only [calculateRSI, if_neg (show ¬ prices.length < period + 1 by omega)]
  rw [if_pos havg]

/-- C5 witness: the strictly increasing 15-price sequence 1..15 with the
standard period 14 yields exactly 100. -/
theorem calculateRSI_increasing_witness :
    calculateRSI [1, 2, 3, 4, 5, 6, 7, 8, 9, 10, 11, 12, 13, 14, 15] 14 = Except.ok 100 :=
  calculateRSI_increasing _ 14 (by norm_num) (by norm_num) (by norm_num [List.chain'_cons])

/-- C6: on a strictly decreasing price sequence of length at least
`period + 1`, every gain is 0 and every loss is positive, so the final
average gain is 0, the final average loss is positive, and
`calculateRSI` returns `100 - 100/(1+0) = 0`. -/
theorem calculateRSI_decreasing (prices : List ℚ) (period : ℕ)
    (hp : 1 ≤ period) (hlen : period + 1 ≤ prices.length)
    (hmono : prices.Chain' (· > ·)) :
    calculateRSI prices period = Except.ok 0 := by
  have hd : ∀ d ∈ diffs prices, d < 0 := diffs_neg_of_chain prices hmono
  have hgains : ∀ x ∈ (diffs prices).map gainOf, x = 0 := by
    intro x hx
    rcases List.mem_map.mp hx with ⟨d, hdmem, rfl⟩
    exact gainOf_eq_zero_of_neg (hd d hdmem)
  have hlossPos : ∀ x ∈ (diffs prices).map lossOf, 0 < x := by
    intro x hx
    rcases List.mem_map.mp hx with ⟨d, hdmem, rfl⟩
    exact lossOf_pos_of_neg (hd d hdmem)
  have hgsum : (((diffs prices).map gainOf).take period).sum = 0 :=
    List.sum_eq_zero (fun x hx => hgains x (List.mem_of_mem_take hx))
  have havgGain : wilderSmooth period
      ((((diffs prices).map gainOf).take period).sum / (period : ℚ))
      (((diffs prices).map gainOf).drop period) = 0 := by
    rw [hgsum, zero_div]
    exact wilderSmooth_zero period _ (fun x hx => hgains x (List.mem_of_mem_drop hx))
  have hmaplen : ((diffs prices).map lossOf).length = prices.length - 1 := by
    rw [List.length_map, diffs_length]
  have htake_ne : ((diffs prices).map lossOf).take period ≠ [] := by
    intro hcontra
    have := congrArg List.length hcontra
    rw [List.length_take, hmaplen] at this
    simp at this
    omega
  have hsumPos : 0 < (((diffs prices).map lossOf).take period).sum :=
    List.sum_pos _ (fun x hx => hlossPos x (List.mem_of_mem_take hx)) htake_ne
  have hpq : (0:ℚ) < (period : ℚ) := by
    have hp' : 0 < period := hp
    exact_mod_cast hp'
  have hinitPos : 0 < (((diffs prices).map lossOf).take period).sum / (period : ℚ) :=
    div_pos hsumPos hpq
  have havgLossPos : 0 < wilderSmooth period
      ((((diffs prices).map lossOf).take period).sum / (period : ℚ))
      (((diffs prices).map lossOf).drop period) :=
    wilderSmooth_pos period hp _ _ hinitPos
      (fun x hx => hlossPos x (List.mem_of_mem_drop hx))
  simp only [calculateRSI, if_neg (show ¬ prices.length < period + 1 by omega)]
  rw [if_neg (ne_of_gt havgLossPos), havgGain, zero_div]
  norm_num [jsRound2, jsRound]

/-- C6 witness: the strictly decreasing 15-price sequence 15..1 with the
standard period 14 yields exactly 0. -/
theorem calculateRSI_decreasing_witness :
    calculateRSI [15, 14, 13, 12, 11, 10, 9, 8, 7, 6, 5, 4, 3, 2, 1] 14 = Except.ok 0 :=
  calculateRSI_decreasing _ 14 (by norm_num) (by norm_num) (by norm_num [List.chain'_cons])

lemma map_getD_last {α β : Type} (f : α → β) (l : List α) (hne : l ≠ []) (d : β) :
    (l.map f).getD ((l.map f).length - 1) d = f (l.getLast hne) := by
  have hpos : 0 < l.length := List.length_pos.mpr hne
  have hlt : (l.map f).length - 1 < (l.map f).length := by
    simp only [List.length_map]
    omega
  rw [List.getD_eq_getElem (l.map f) d hlt, List.getLast_eq_getElem l hne]
  simp

/-- C10: whenever a cycle's reading is produced (`getCurrentRSI` succeeds on a
non-empty kline list), its price is the parse of the close of the last kline. -/
theorem getCurrentRSI_price_spec (parseFloat : String → ℚ) (klines : List KlineData)
    (now : ℤ) (r : RSIData) (hne : klines ≠ [])
    (h : getCurrentRSI parseFloat klines now = Except.ok r) :
    r.price = parseFloat (klines.getLast hne).close := by
  simp only [getCurrentRSI] at h
  cases hc : calculateRSI (klines.map fun kline => parseFloat kline.close) RSI_PERIOD with
  | error e =>
    rw [hc] at h
    exact absurd h (by simp)
  | ok v =>
    rw [hc] at h
    have hr := Except.ok.inj h
    rw [← hr]
    exact map_getD_last (fun kline => parseFloat kline.close) klines hne 0

/-- A concrete kline used by witnesses. -/
def testKline : KlineData :=
  { openTime := 0, openPrice := "", high := "", low := "", close := "1",
    volume := "", closeTime := 0, quoteAssetVolume := "", numberOfTrades := 0,
    takerBuyBaseAssetVolume := "", takerBuyQuoteAssetVolume := "", ignore := "" }

/-- C10 witness: on 15 identical klines whose parses are all 37, the reading
is produced with price 37, the parse of the last close. -/
theorem getCurrentRSI_price_witness :
    (⟨100, 0, 37⟩ : RSIData).price =
      (fun _ : String => (37:ℚ)) ((List.replicate 15 testKline).getLast (by simp)).close :=
  getCurrentRSI_price_spec (fun _ => 37) (List.replicate 15 testKline) 0 ⟨100, 0, 37⟩
    (by simp)
    (by norm_num [getCurrentRSI, calculateRSI, List.replicate, RSI_PERIOD,
          diffs, wilderSmooth, wilderStep, gainOf, lossOf])

/-- `\w` of the JavaScript regexes (no unicode flag): ASCII letter, digit
or underscore. -/
def isWordChar (c : Char) : Bool := c.isAlphanum || c == '_'

/-- `channelInput.match(/^@\w+$/)` as a Boolean on the char list (line 376). -/
def matchUsername (cs : List Char) : Bool :=
  match cs with
  | [] => false
  | a :: rest => a == '@' && !rest.isEmpty && rest.all isWordChar

/-- `channelInput.match(/^-100\d{10}$/)` as a Boolean on the char list (line 377). -/
def matchChatId (cs : List Char) : Bool :=
  match cs with
  | a :: b :: c :: d :: rest =>
      a == '-' && b == '1' && c == '0' && d == '0' &&
        rest.length == 10 && rest.all Char.isDigit
  | _ => false

/-- The `/add_channel` format check `isUsername || isChatId` (lines 376-379). -/
def validDestination (s : String) : Bool := matchUsername s.data || matchChatId s.data

/-- The registry: the in-memory `userConfigs : Map<number, UserConfig>` (line 55). -/
abbrev Registry : Type := ℤ → Option UserConfig

/-- The registry at process start: empty. -/
def emptyRegistry : Registry := fun _ => none

/-- The defaults written by `/start` (lines 277-286). -/
def defaultConfig (chatId : ℤ) : UserConfig :=
  { chatId := chatId,
    rsiThresholds := { oversold := 30, overbought := 70 },
    alertsEnabled := true,
    lastAlertTime := 0,
    channels := [] }

/-- The `/start` handler (lines 269-286): unconditionally overwrites the
subscriber's entry with the defaults. -/
def registerUser (reg : Registry) (chatId : ℤ) : Registry :=
  fun k => if k = chatId then some (defaultConfig chatId) else reg k

/-- The handlers mutate `userConfigs.get(chatId)` in place when it exists;
this applies `f` to that entry and leaves every other entry alone. -/
def updateUser (reg : Registry) (chatId : ℤ) (f : UserConfig → UserConfig) : Registry :=
  fun k => if k = chatId then (reg chatId).map f else reg k

/-- The `/set_oversold` handler (lines 323-341); `value` comes from the
`(\d+)` capture, hence a natural number. -/
def setOversold (reg : Registry) (chatId : ℤ) (value : ℕ) : Registry :=
  if value < 1 ∨ 99 < value then reg
  else updateUser reg chatId
    (fun c => { c with rsiThresholds := { c.rsiThresholds with oversold := (value : ℚ) } })

/-- The `/set_overbought` handler (lines 343-361). -/
def setOverbought (reg : Registry) (chatId : ℤ) (value : ℕ) : Registry :=
  if value < 1 ∨ 99 < value then reg
  else updateUser reg chatId
    (fun c => { c with rsiThresholds := { c.rsiThresholds with overbought := (value : ℚ) } })

/-- The `/toggle` handler (lines 492-508). -/
def toggleAlerts (reg : Registry) (chatId : ℤ) : Registry :=
  updateUser reg chatId (fun c => { c with alertsEnabled := !c.alertsEnabled })

/-- The distinct exits of the `/add_channel` handler, one per reply message. -/
inductive AddChannelResult where
  | notRegistered
  | invalidFormat
  | alreadyExists
  | probeFailed
  | added
  deriving DecidableEq, Repr

/-- The `/add_channel` handler (lines 364-414).  `channelInput` is the
already-trimmed argument; `probeOk` is whether the test message of line 396
is delivered (the channel is pushed only after that send succeeds). -/
def addChannel (reg : Registry) (chatId : ℤ) (channelInput : String) (probeOk : Bool) :
    Registry × AddChannelResult :=
  match reg chatId with
  | none => (reg, AddChannelResult.notRegistered)
  | some userConfig =>
    if validDestination channelInput = false then
      (reg, AddChannelResult.invalidFormat)
    else if channelInput ∈ userConfig.channels then
      (reg, AddChannelResult.alreadyExists)
    else if probeOk then
      (updateUser reg chatId (fun c => { c with channels := c.channels ++ [channelInput] }),
       AddChannelResult.added)
    else
      (reg, AddChannelResult.probeFailed)

/-- The `/remove_channel` handler (lines 417-437): `indexOf`/`splice(i, 1)`
removes the first occurrence when present.  The Boolean reports whether a
removal happened. -/
def removeChannel (reg : Registry) (chatId : ℤ) (channelInput : String) : Registry × Bool :=
  match reg chatId with
  | none => (reg, false)
  | some userConfig =>
    if channelInput ∈ userConfig.channels then
      (updateUser reg chatId (fun c => { c with channels := c.channels.erase channelInput }),
       true)
    else (reg, false)

/-- Registry states reachable from process start by any sequence of
commands. -/
inductive Reachable : Registry → Prop where
  | init : Reachable emptyRegistry
  | register (reg : Registry) (chatId : ℤ) :
      Reachable reg → Reachable (registerUser reg chatId)
  | oversold (reg : Registry) (chatId : ℤ) (value : ℕ) :
      Reachable reg → Reachable (setOversold reg chatId value)
  | overbought (reg : Registry) (chatId : ℤ) (value : ℕ) :
      Reachable reg → Reachable (setOverbought reg chatId value)
  | toggle (reg : Registry) (chatId : ℤ) :
      Reachable reg → Reachable (toggleAlerts reg chatId)
  | addCh (reg : Registry) (chatId : ℤ) (input : String) (probeOk : Bool) :
      Reachable reg → Reachable (addChannel reg chatId input probeOk).1
  | removeCh (reg : Registry) (chatId : ℤ) (input : String) :
      Reachable reg → Reachable (removeChannel reg chatId input).1

/-- The inductive invariant: every registered config's channel list has no
duplicates, and holds only format-validated destinations. -/
def RegistryInv (reg : Registry) : Prop :=
  ∀ id c, reg id = some c →
    c.channels.Nodup ∧ ∀ ch ∈ c.channels, validDestination ch = true

lemma registryInv_empty : RegistryInv emptyRegistry := by
  intro id c hc
  exact absurd hc (by simp [emptyRegistry])

lemma registryInv_register (reg : Registry) (chatId : ℤ) (h : RegistryInv reg) :
    RegistryInv (registerUser reg chatId) := by
  intro id c hc
  simp only [registerUser] at hc
  by_cases hid : id = chatId
  · rw [if_pos hid] at hc
    obtain rfl : defaultConfig chatId = c := Option.some.inj hc
    exact ⟨List.nodup_nil, by simp [defaultConfig]⟩
  · rw [if_neg hid] at hc
    exact h id c hc

lemma registryInv_updateUser (reg : Registry) (chatId : ℤ) (f : UserConfig → UserConfig)
    (h : RegistryInv reg)
    (hf : ∀ c, reg chatId = some c →
      (f c).channels.Nodup ∧ ∀ ch ∈ (f c).channels, validDestination ch = true) :
    RegistryInv (updateUser reg chatId f) := by
  intro id c hc
  simp only [updateUser] at hc
  by_cases hid : id = chatId
  · rw [if_pos hid] at hc
    cases hreg : reg chatId with
    | none => rw [hreg] at hc; exact absurd hc (by simp)
    | some c0 =>
      rw [hreg] at hc
      obtain rfl : f c0 = c := Option.some.inj hc
      exact hf c0 hreg
  · rw [if_neg hid] at hc
    exact h id c hc

lemma registryInv_setOversold (reg : Registry) (chatId : ℤ) (value : ℕ)
    (h : RegistryInv reg) : RegistryInv (setOversold reg chatId value) := by
  unfold setOversold
  split
  · exact h
  · exact registryInv_updateUser reg chatId _ h (fun c hc => (h chatId c hc))

lemma registryInv_setOverbought (reg : Registry) (chatId : ℤ) (value : ℕ)
    (h : RegistryInv reg) : RegistryInv (setOverbought reg chatId value) := by
  unfold setOverbought
  split
  · exact h
  · exact registryInv_updateUser reg chatId _ h (fun c hc => (h chatId c hc))

lemma registryInv_toggle (reg : Registry) (chatId : ℤ) (h : RegistryInv reg) :
    RegistryInv (toggleAlerts reg chatId) :=
  registryInv_updateUser reg chatId _ h (fun c hc => (h chatId c hc))

lemma addChannel_fst (reg : Registry) (chatId : ℤ) (input : String) (probeOk : Bool) :
    (addChannel reg chatId input probeOk).1 = reg ∨
    (∃ userConfig, reg chatId = some userConfig ∧ validDestination input = true ∧
      input ∉ userConfig.channels ∧ probeOk = true ∧
      (addChannel reg chatId input probeOk).1 =
        updateUser reg chatId (fun c => { c with channels := c.channels ++ [input] })) := by
  unfold addChannel
  cases hreg : reg chatId with
  | none => left; rfl
  | some uc =>
    dsimp only
    by_cases hv : validDestination input = false
    · left; rw [if_pos hv]
    · have hv2 : validDestination input = true := by
        revert hv; cases validDestination input <;> simp
      by_cases hmem : input ∈ uc.channels
      · left; rw [if_neg hv, if_pos hmem]
      · by_cases hp : probeOk = true
        · right
          exact ⟨uc, rfl, hv2, hmem, hp, by rw [if_neg hv, if_neg hmem, if_pos hp]⟩
        · left; rw [if_neg hv, if_neg hmem, if_neg hp]

lemma registryInv_addChannel (reg : Registry) (chatId : ℤ) (input : String) (probeOk : Bool)
    (h : RegistryInv reg) : RegistryInv (addChannel reg chatId input probeOk).1 := by
  rcases addChannel_fst reg chatId input probeOk with heq | ⟨uc, hreg, hval, hmem, _, heq⟩
  · rw [heq]; exact h
  · rw [heq]
    apply registryInv_updateUser reg chatId _ h
    intro c hc
    rw [hreg] at hc
    obtain rfl : uc = c := Option.some.inj hc
    obtain ⟨hnd, hvc⟩ := h chatId uc hreg
    constructor
    · simp [List.nodup_append, hnd, hmem]
    · intro ch hch
      rcases List.mem_append.mp hch with h1 | h2
      · exact hvc ch h1
      · rw [List.mem_singleton.mp h2]; exact hval

lemma removeChannel_fst (reg : Registry) (chatId : ℤ) (input : String) :
    (removeChannel reg chatId input).1 = reg ∨
    (removeChannel reg chatId input).1 =
      updateUser reg chatId (fun c => { c with channels := c.channels.erase input }) := by
  unfold removeChannel
  cases hreg : reg chatId with
  | none => left; rfl
  | some uc =>
    dsimp only
    by_cases hmem : input ∈ uc.channels
    · right; rw [if_pos hmem]
    · left; rw [if_neg hmem]

lemma registryInv_removeChannel (reg : Registry) (chatId : ℤ) (input : String)
    (h : RegistryInv reg) : RegistryInv (removeChannel reg chatId input).1 := by
  rcases removeChannel_fst reg chatId input with heq | heq
  · rw [heq]; exact h
  · rw [heq]
    apply registryInv_updateUser reg chatId _ h
    intro c hc
    obtain ⟨hnd, hvc⟩ := h chatId c hc
    exact ⟨hnd.erase input, fun ch hch => hvc ch (List.mem_of_mem_erase hch)⟩

lemma reachable_inv (reg : Registry) (h : Reachable reg) : RegistryInv reg := by
  induction h with
  | init => exact registryInv_empty
  | register r chatId _ ih => exact registryInv_register r chatId ih
  | oversold r chatId value _ ih => exact registryInv_setOversold r chatId value ih
  | overbought r chatId value _ ih => exact registryInv_setOverbought r chatId value ih
  | toggle r chatId _ ih => exact registryInv_toggle r chatId ih
  | addCh r chatId input probeOk _ ih => exact registryInv_addChannel r chatId input probeOk ih
  | removeCh r chatId input _ ih => exact registryInv_removeChannel r chatId input ih

/-- C7 (amended): in every reachable registry state each subscriber's
destination list has no duplicates.  `/add_channel` with an already-present
destination replies AlreadyExists and leaves the registry unchanged, and
with an absent destination it appends it exactly when the format check and
the deliverability probe succeed (a failing probe or format leaves the list
unchanged). -/
theorem registry_channels_spec (reg : Registry) (hreach : Reachable reg) :
    (∀ id c, reg id = some c → c.channels.Nodup) ∧
    (∀ chatId c input probeOk, reg chatId = some c →
      ((input ∈ c.channels →
         addChannel reg chatId input probeOk = (reg, AddChannelResult.alreadyExists)) ∧
       (input ∉ c.channels → validDestination input = true → probeOk = true →
         (addChannel reg chatId input probeOk).2 = AddChannelResult.added ∧
         (addChannel reg chatId input probeOk).1 chatId =
           some { c with channels := c.channels ++ [input] } ∧
         (∀ k, k ≠ chatId → (addChannel reg chatId input probeOk).1 k = reg k)))) := by
  have hinv := reachable_inv reg hreach
  refine ⟨fun id c hc => (hinv id c hc).1, ?_⟩
  intro chatId c input probeOk hc
  obtain ⟨hnd, hval⟩ := hinv chatId c hc
  constructor
  · intro hmem
    have hv : validDestination input = true := hval input hmem
    unfold addChannel
    rw [hc]
    dsimp only
    rw [if_neg (by simp [hv]), if_pos hmem]
  · intro hmem hv hp
    unfold addChannel
    rw [hc]
    dsimp only
    rw [if_neg (by simp [hv]), if_neg hmem, if_pos hp]
    refine ⟨rfl, ?_, ?_⟩
    · simp [updateUser, hc]
    · intro k hk
      simp [updateUser, hk]

/-- C7 witness: from the reachable state where subscriber 1 has just
registered, adding the valid absent destination `@a` with a succeeding
probe appends it. -/
theorem registry_channels_witness :
    (addChannel (registerUser emptyRegistry 1) 1 "@a" true).1 1 =
      some { defaultConfig 1 with channels := (defaultConfig 1).channels ++ ["@a"] } :=
  (((registry_channels_spec _ (Reachable.register _ 1 Reachable.init)).2 1 (defaultConfig 1)
      "@a" true rfl).2 (by simp [defaultConfig]) (by decide) rfl).2.1

/-- C7 counterexample to the claim as stated: `@a` is absent from subscriber
1's freshly registered (empty) destination list and has valid format, yet
`/add_channel` with a failing deliverability probe does not append it — the
handler replies about the failed test send and the list stays empty. -/
theorem addChannel_probeFailed_cex :
    "@a" ∉ (defaultConfig 1).channels ∧
    validDestination "@a" = true ∧
    (addChannel (registerUser emptyRegistry 1) 1 "@a" false).2 =
      AddChannelResult.probeFailed ∧
    (addChannel (registerUser emptyRegistry 1) 1 "@a" false).1 1 =
      some (defaultConfig 1) := by
  refine ⟨by simp [defaultConfig], by decide, by decide, by decide⟩

/-- C8: `/start` always overwrites the issuing subscriber's entry with the
defaults (oversold 30, overbought 70, alerts on, last-alert timestamp 0, no
destinations), so registering twice equals registering once. -/
theorem registerUser_spec (reg : Registry) (chatId : ℤ) :
    (registerUser reg chatId) chatId =
      some { chatId := chatId, rsiThresholds := { oversold := 30, overbought := 70 },
             alertsEnabled := true, lastAlertTime := 0, channels := [] } ∧
    registerUser (registerUser reg chatId) chatId = registerUser reg chatId := by
  constructor
  · simp [registerUser, defaultConfig]
  · funext k
    by_cases hk : k = chatId <;> simp [registerUser, hk]

lemma matchUsername_iff (cs : List Char) :
    matchUsername cs = true ↔
      ∃ rest, cs = '@' :: rest ∧ rest ≠ [] ∧ ∀ c ∈ rest, isWordChar c = true := by
  cases cs with
  | nil => simp [matchUsername]
  | cons a rest =>
    simp only [matchUsername, Bool.and_eq_true, beq_iff_eq, Bool.not_eq_true',
      List.isEmpty_eq_false, List.all_eq_true]
    constructor
    · rintro ⟨⟨ha, hne⟩, hall⟩
      exact ⟨rest, by rw [ha], hne, hall⟩
    · rintro ⟨rest2, heq, hne, hall⟩
      obtain ⟨rfl, rfl⟩ : a = '@' ∧ rest = rest2 := by
        constructor <;> [exact (List.cons.injEq _ _ _ _ ▸ heq).1;
          exact (List.cons.injEq _ _ _ _ ▸ heq).2]
      exact ⟨⟨rfl, hne⟩, hall⟩

lemma matchChatId_iff (cs : List Char) :
    matchChatId cs = true ↔
      ∃ rest, cs = '-' :: '1' :: '0' :: '0' :: rest ∧ rest.length = 10 ∧
        ∀ c ∈ rest, c.isDigit = true := by
  rcases cs with _ | ⟨a, _ | ⟨b, _ | ⟨c, _ | ⟨d, rest⟩⟩⟩⟩
  · simp [matchChatId]
  · simp [matchChatId]
  · simp [matchChatId]
  · simp [matchChatId]
  · simp only [matchChatId, Bool.and_eq_true, beq_iff_eq, List.all_eq_true]
    constructor
    · rintro ⟨⟨⟨⟨⟨ha, hb⟩, hc⟩, hd⟩, hlen⟩, hall⟩
      subst ha; subst hb; subst hc; subst hd
      exact ⟨rest, rfl, by exact_mod_cast hlen, hall⟩
    · rintro ⟨rest2, heq, hlen, hall⟩
      simp only [List.cons.injEq] at heq
      obtain ⟨rfl, rfl, rfl, rfl, rfl⟩ := heq
      exact ⟨⟨⟨⟨⟨rfl, rfl⟩, rfl⟩, rfl⟩, by exact_mod_cast hlen⟩, hall⟩

/-- C9: the `/add_channel` format check accepts a destination string iff it
is `@` followed by one or more word characters, or `-100` followed by
exactly ten digits; it accepts `@abc123` and `-1001234567890`, rejects
`abc123` and `-100123`, and a rejected string never mutates the registry. -/
theorem validDestination_spec (s : String) :
    (validDestination s = true ↔
      ((∃ rest, s.data = '@' :: rest ∧ rest ≠ [] ∧ ∀ c ∈ rest, isWordChar c = true) ∨
       (∃ rest, s.data = '-' :: '1' :: '0' :: '0' :: rest ∧ rest.length = 10 ∧
          ∀ c ∈ rest, c.isDigit = true))) ∧
    validDestination "@abc123" = true ∧
    validDestination "-1001234567890" = true ∧
    validDestination "abc123" = false ∧
    validDestination "-100123" = false ∧
    (∀ reg chatId probeOk, validDestination s = false →
      (addChannel reg chatId s probeOk).1 = reg ∧
      (addChannel reg chatId s probeOk).2 ≠ AddChannelResult.added) := by
  refine ⟨?_, by decide, by decide, by decide, by decide, ?_⟩
  · rw [validDestination, Bool.or_eq_true, matchUsername_iff, matchChatId_iff]
  · intro reg chatId probeOk hv
    unfold addChannel
    cases hreg : reg chatId with
    | none => exact ⟨rfl, fun h => AddChannelResult.noConfusion h⟩
    | some uc =>
      dsimp only
      rw [if_pos hv]
      exact ⟨rfl, fun h => AddChannelResult.noConfusion h⟩

/-- A `bot.sendMessage` destination: the subscriber's own chat (numeric id)
or a configured channel (string as stored in `channels`). -/
inductive Target where
  | user (chatId : ℤ)
  | channel (name : String)
  deriving DecidableEq, Repr

/-- What a given send carries: the alert text (lines 205-217) or the warning
notice about a failed channel (line 231), which names that channel. -/
inductive MsgKind where
  | alert
  | warning (channel : String)
  deriving DecidableEq, Repr

/-- Outcome of the channel fan-out loop: the send calls attempted in order,
the ones that succeeded, and whether the loop ran to completion (if a
warning send throws, the exception escapes the inner catch and aborts the
enclosing `try`). -/
structure LoopOutcome where
  attempted : List (Target × MsgKind)
  delivered : List (Target × MsgKind)
  completed : Bool
  deriving DecidableEq, Repr

/-- The `for (const channel of userConfig.channels)` loop (lines 224-233).
`oracle n` decides whether the n-th `sendMessage` call of the dispatch
(counted from the primary send as call 0) succeeds; `k` is the number of
calls already made.  A failed channel send (line 226) is caught and answered
by a warning send to the subscriber's chat (line 231); that warning send is
not itself guarded, so its failure ends the loop with `completed := false`. -/
def channelLoop (oracle : ℕ → Bool) (chatId : ℤ) : List String → ℕ → LoopOutcome
  | [], _ => ⟨[], [], true⟩
  | ch :: rest, k =>
    if oracle k then
      ⟨(Target.channel ch, MsgKind.alert) ::
         (channelLoop oracle chatId rest (k + 1)).attempted,
       (Target.channel ch, MsgKind.alert) ::
         (channelLoop oracle chatId rest (k + 1)).delivered,
       (channelLoop oracle chatId rest (k + 1)).completed⟩
    else if oracle (k + 1) then
      ⟨(Target.channel ch, MsgKind.alert) :: (Target.user chatId, MsgKind.warning ch) ::
         (channelLoop oracle chatId rest (k + 2)).attempted,
       (Target.user chatId, MsgKind.warning ch) ::
         (channelLoop oracle chatId rest (k + 2)).delivered,
       (channelLoop oracle chatId rest (k + 2)).completed⟩
    else
      ⟨[(Target.channel ch, MsgKind.alert), (Target.user chatId, MsgKind.warning ch)],
       [], false⟩

/-- Outcome of one whole dispatch: `lastAlertUpdated` is whether line 235
(`userConfigs.get(chatId)!.lastAlertTime = Date.now()`) was reached. -/
structure DispatchOutcome where
  attempted : List (Target × MsgKind)
  delivered : List (Target × MsgKind)
  lastAlertUpdated : Bool
  deriving DecidableEq, Repr

/-- `sendRSIAlert` (lines 200-239): primary send first (line 221, call 0);
if it throws, the outer catch ends the dispatch; otherwise the channel loop
runs, and line 235 updates `lastAlertTime` only if the loop completes
without an unguarded throw. -/
def sendRSIAlert (oracle : ℕ → Bool) (chatId : ℤ) (channels : List String) :
    DispatchOutcome :=
  if oracle 0 then
    ⟨(Target.user chatId, MsgKind.alert) :: (channelLoop oracle chatId channels 1).attempted,
     (Target.user chatId, MsgKind.alert) :: (channelLoop oracle chatId channels 1).delivered,
     (channelLoop oracle chatId channels 1).completed⟩
  else
    ⟨[(Target.user chatId, MsgKind.alert)], [], false⟩

lemma channelLoop_attempted_shape (oracle : ℕ → Bool) (cid : ℤ) :
    ∀ (chs : List String) (k : ℕ) (p : Target × MsgKind),
      p ∈ (channelLoop oracle cid chs k).attempted →
      (∃ ch ∈ chs, p = (Target.channel ch, MsgKind.alert)) ∨
      (∃ ch ∈ chs, p = (Target.user cid, MsgKind.warning ch)) := by
  intro chs
  induction chs with
  | nil =>
    intro k p hp
    exact absurd hp (List.not_mem_nil p)
  | cons ch rest ih =>
    intro k p hp
    simp only [channelLoop] at hp
    split at hp
    · rcases List.mem_cons.mp hp with rfl | hp2
      · exact Or.inl ⟨ch, List.mem_cons_self ch rest, rfl⟩
      · rcases ih (k + 1) p hp2 with ⟨c2, hc2, hpe⟩ | ⟨c2, hc2, hpe⟩
        · exact Or.inl ⟨c2, List.mem_cons_of_mem ch hc2, hpe⟩
        · exact Or.inr ⟨c2, List.mem_cons_of_mem ch hc2, hpe⟩
    · split at hp
      · rcases List.mem_cons.mp hp with rfl | hp2
        · exact Or.inl ⟨ch, List.mem_cons_self ch rest, rfl⟩
        · rcases List.mem_cons.mp hp2 with rfl | hp3
          · exact Or.inr ⟨ch, List.mem_cons_self ch rest, rfl⟩
          · rcases ih (k + 2) p hp3 with ⟨c2, hc2, hpe⟩ | ⟨c2, hc2, hpe⟩
            · exact Or.inl ⟨c2, List.mem_cons_of_mem ch hc2, hpe⟩
            · exact Or.inr ⟨c2, List.mem_cons_of_mem ch hc2, hpe⟩
      · rcases List.mem_cons.mp hp with rfl | hp2
        · exact Or.inl ⟨ch, List.mem_cons_self ch rest, rfl⟩
        · rcases List.mem_cons.mp hp2 with rfl | hp3
          · exact Or.inr ⟨ch, List.mem_cons_self ch rest, rfl⟩
          · exact absurd hp3 (List.not_mem_nil p)

lemma channelLoop_delivered_sub (oracle : ℕ → Bool) (cid : ℤ) :
    ∀ (chs : List String) (k : ℕ) (p : Target × MsgKind),
      p ∈ (channelLoop oracle cid chs k).delivered →
      p ∈ (channelLoop oracle cid chs k).attempted := by
  intro chs
  induction chs with
  | nil =>
    intro k p hp
    exact absurd hp (List.not_mem_nil p)
  | cons ch rest ih =>
    intro k p hp
    simp only [channelLoop] at hp ⊢
    split at hp
    · next h1 =>
      rw [if_pos h1]
      rcases List.mem_cons.mp hp with rfl | hp2
      · exact List.mem_cons_self _ _
      · exact List.mem_cons_of_mem _ (ih (k + 1) p hp2)
    · split at hp
      · next h1 h2 =>
        rw [if_neg h1, if_pos h2]
        rcases List.mem_cons.mp hp with rfl | hp2
        · exact List.mem_cons_of_mem _ (List.mem_cons_self _ _)
        · exact List.mem_cons_of_mem _ (List.mem_cons_of_mem _ (ih (k + 2) p hp2))
      · exact absurd hp (List.not_mem_nil p)

lemma channelLoop_warning_mem (oracle : ℕ → Bool) (cid : ℤ) (chs : List String) (k : ℕ)
    (w : String)
    (h : (Target.user cid, MsgKind.warning w) ∈ (channelLoop oracle cid chs k).attempted) :
    w ∈ chs := by
  rcases channelLoop_attempted_shape oracle cid chs k _ h with ⟨c2, hc2, hpe⟩ | ⟨c2, hc2, hpe⟩
  · exact absurd (congrArg Prod.fst hpe) (by simp)
  · obtain rfl : w = c2 := by
      have := congrArg Prod.snd hpe
      simpa using this
    exact hc2

lemma channelLoop_alert_mem (oracle : ℕ → Bool) (cid : ℤ) (chs : List String) (k : ℕ)
    (c : String)
    (h : (Target.channel c, MsgKind.alert) ∈ (channelLoop oracle cid chs k).attempted) :
    c ∈ chs := by
  rcases channelLoop_attempted_shape oracle cid chs k _ h with ⟨c2, hc2, hpe⟩ | ⟨c2, hc2, hpe⟩
  · obtain rfl : c = c2 := by
      have := congrArg Prod.fst hpe
      simpa using this
    exact hc2
  · exact absurd (congrArg Prod.fst hpe) (by simp)

lemma channelLoop_no_primary (oracle : ℕ → Bool) (cid : ℤ) (chs : List String) (k : ℕ) :
    (Target.user cid, MsgKind.alert) ∉ (channelLoop oracle cid chs k).attempted := by
  intro hmem
  rcases channelLoop_attempted_shape oracle cid chs k _ hmem with ⟨c2, _, hpe⟩ | ⟨c2, _, hpe⟩
  · exact absurd (congrArg Prod.fst hpe) (by simp)
  · exact absurd (congrArg Prod.snd hpe) (by simp)

lemma channelLoop_completed_attempts (oracle : ℕ → Bool) (cid : ℤ) :
    ∀ (chs : List String) (k : ℕ),
      (channelLoop oracle cid chs k).completed = true →
      ∀ ch ∈ chs, (Target.channel ch, MsgKind.alert) ∈ (channelLoop oracle cid chs k).attempted := by
  intro chs
  induction chs with
  | nil =>
    intro k _ ch hch
    exact absurd hch (List.not_mem_nil ch)
  | cons ch rest ih =>
    intro k hcomp c hc
    simp only [channelLoop] at hcomp ⊢
    split at hcomp
    · next h1 =>
      rw [if_pos h1]
      rcases List.mem_cons.mp hc with rfl | hc2
      · exact List.mem_cons_self _ _
      · exact List.mem_cons_of_mem _ (ih (k + 1) hcomp c hc2)
    · split at hcomp
      · next h1 h2 =>
        rw [if_neg h1, if_pos h2]
        rcases List.mem_cons.mp hc with rfl | hc2
        · exact List.mem_cons_self _ _
        · exact List.mem_cons_of_mem _
            (List.mem_cons_of_mem _ (ih (k + 2) hcomp c hc2))
      · exact absurd hcomp (by simp)

lemma channelLoop_completed_iff (oracle : ℕ → Bool) (cid : ℤ) :
    ∀ (chs : List String) (k : ℕ), chs.Nodup →
      ((channelLoop oracle cid chs k).completed = true ↔
        ∀ w, (Target.user cid, MsgKind.warning w) ∈ (channelLoop oracle cid chs k).attempted →
          (Target.user cid, MsgKind.warning w) ∈ (channelLoop oracle cid chs k).delivered) := by
  intro chs
  induction chs with
  | nil =>
    intro k _
    constructor
    · intro _ w hw
      exact absurd hw (List.not_mem_nil _)
    · intro _
      rfl
  | cons ch rest ih =>
    intro k hnd
    obtain ⟨hch, hndr⟩ := List.nodup_cons.mp hnd
    simp only [channelLoop]
    split
    · next h1 =>
      constructor
      · intro hcomp w hw
        have hw2 : (Target.user cid, MsgKind.warning w) ∈
            (channelLoop oracle cid rest (k + 1)).attempted := by
          rcases List.mem_cons.mp hw with he | h2
          · exact absurd (congrArg Prod.fst he) (by simp)
          · exact h2
        exact List.mem_cons_of_mem _ ((ih (k + 1) hndr).mp hcomp w hw2)
      · intro hall
        apply (ih (k + 1) hndr).mpr
        intro w hw
        have hd := hall w (List.mem_cons_of_mem _ hw)
        rcases List.mem_cons.mp hd with he | h2
        · exact absurd (congrArg Prod.fst he) (by simp)
        · exact h2
    · split
      · next h1 h2 =>
        constructor
        · intro hcomp w hw
          rcases List.mem_cons.mp hw with he | hw2
          · exact absurd (congrArg Prod.fst he) (by simp)
          · rcases List.mem_cons.mp hw2 with he | hw3
            · obtain rfl : w = ch := by
                have := congrArg Prod.snd he
                simpa using this
              exact List.mem_cons_self _ _
            · exact List.mem_cons_of_mem _ ((ih (k + 2) hndr).mp hcomp w hw3)
        · intro hall
          apply (ih (k + 2) hndr).mpr
          intro w hw
          have hwr : w ∈ rest := channelLoop_warning_mem oracle cid rest (k + 2) w hw
          have hwch : w ≠ ch := fun he => hch (he ▸ hwr)
          have hd := hall w (List.mem_cons_of_mem _ (List.mem_cons_of_mem _ hw))
          rcases List.mem_cons.mp hd with he | h3
          · exact absurd (by simpa using congrArg Prod.snd he) hwch
          · exact h3
      · constructor
        · intro hcomp
          exact absurd hcomp (by simp)
        · intro hall
          have := hall ch (List.mem_cons_of_mem _ (List.mem_cons_self _ _))
          exact absurd this (List.not_mem_nil _)


lemma channelLoop_cons_eq1 (oracle : ℕ → Bool) (cid : ℤ) (ch : String) (rest : List String)
    (k : ℕ) (h1 : oracle k = true) :
    channelLoop oracle cid (ch :: rest) k =
      ⟨(Target.channel ch, MsgKind.alert) :: (channelLoop oracle cid rest (k + 1)).attempted,
       (Target.channel ch, MsgKind.alert) :: (channelLoop oracle cid rest (k + 1)).delivered,
       (channelLoop oracle cid rest (k + 1)).completed⟩ := by
  simp only [channelLoop, if_pos h1]

lemma channelLoop_cons_eq2 (oracle : ℕ → Bool) (cid : ℤ) (ch : String) (rest : List String)
    (k : ℕ) (h1 : oracle k = false) (h2 : oracle (k + 1) = true) :
    channelLoop oracle cid (ch :: rest) k =
      ⟨(Target.channel ch, MsgKind.alert) :: (Target.user cid, MsgKind.warning ch) ::
         (channelLoop oracle cid rest (k + 2)).attempted,
       (Target.user cid, MsgKind.warning ch) :: (channelLoop oracle cid rest (k + 2)).delivered,
       (channelLoop oracle cid rest (k + 2)).completed⟩ := by
  simp [channelLoop, h1, h2]

lemma channelLoop_cons_eq3 (oracle : ℕ → Bool) (cid : ℤ) (ch : String) (rest : List String)
    (k : ℕ) (h1 : oracle k = false) (h2 : oracle (k + 1) = false) :
    channelLoop oracle cid (ch :: rest) k =
      ⟨[(Target.channel ch, MsgKind.alert), (Target.user cid, MsgKind.warning ch)],
       [], false⟩ := by
  simp [channelLoop, h1, h2]

lemma channelLoop_warning_count (oracle : ℕ → Bool) (cid : ℤ) :
    ∀ (chs : List String) (k : ℕ), chs.Nodup →
      (channelLoop oracle cid chs k).completed = true →
      (∀ c ∈ chs,
        (channelLoop oracle cid chs k).delivered.count (Target.user cid, MsgKind.warning c) =
          if (Target.channel c, MsgKind.alert) ∈ (channelLoop oracle cid chs k).delivered
          then 0 else 1) ∧
      (∀ w, w ∉ chs →
        (channelLoop oracle cid chs k).delivered.count (Target.user cid, MsgKind.warning w) = 0) := by
  intro chs
  induction chs with
  | nil =>
    intro k _ _
    exact ⟨fun c hc => absurd hc (List.not_mem_nil c), fun w _ => rfl⟩
  | cons ch rest ih =>
    intro k hnd hcomp
    obtain ⟨hch, hndr⟩ := List.nodup_cons.mp hnd
    cases h1 : oracle k with
    | true =>
      rw [channelLoop_cons_eq1 oracle cid ch rest k h1] at hcomp ⊢
      dsimp only at hcomp ⊢
      obtain ⟨ihA, ihB⟩ := ih (k + 1) hndr hcomp
      constructor
      · intro c hc
        rcases List.mem_cons.mp hc with rfl | hc2
        · rw [if_pos (List.mem_cons_self _ _)]
          have h0 := ihB c hch
          simpa [List.count_cons] using h0
        · have hcne : c ≠ ch := fun he => hch (he ▸ hc2)
          have h0 := ihA c hc2
          simpa [List.count_cons, List.mem_cons, hcne] using h0
      · intro w hw
        rw [List.mem_cons] at hw
        push_neg at hw
        have h0 := ihB w hw.2
        simpa [List.count_cons] using h0
    | false =>
      cases h2 : oracle (k + 1) with
      | true =>
        rw [channelLoop_cons_eq2 oracle cid ch rest k h1 h2] at hcomp ⊢
        dsimp only at hcomp ⊢
        obtain ⟨ihA, ihB⟩ := ih (k + 2) hndr hcomp
        have halertmem : ∀ c, (Target.channel c, MsgKind.alert) ∈
            (channelLoop oracle cid rest (k + 2)).delivered → c ∈ rest :=
          fun c hm => channelLoop_alert_mem oracle cid rest (k + 2) c
            (channelLoop_delivered_sub oracle cid rest (k + 2) _ hm)
        constructor
        · intro c hc
          rcases List.mem_cons.mp hc with rfl | hc2
          · have hnotmem : (Target.channel c, MsgKind.alert) ∉
                (Target.user cid, MsgKind.warning c) ::
                  (channelLoop oracle cid rest (k + 2)).delivered := by
              intro hm
              rcases List.mem_cons.mp hm with he | hm2
              · exact absurd (congrArg Prod.fst he) (by simp)
              · exact hch (halertmem c hm2)
            rw [if_neg hnotmem]
            have h0 := ihB c hch
            simp [List.count_cons, h0]
          · have hcne : c ≠ ch := fun he => hch (he ▸ hc2)
            have h0 := ihA c hc2
            simpa [List.count_cons, List.mem_cons, hcne] using h0
        · intro w hw
          rw [List.mem_cons] at hw
          push_neg at hw
          have h0 := ihB w hw.2
          simpa [List.count_cons, hw.1] using h0
      | false =>
        rw [channelLoop_cons_eq3 oracle cid ch rest k h1 h2] at hcomp
        exact absurd hcomp (by simp)

/-- C2 (amended): a failed primary send aborts the whole dispatch with
nothing delivered and `lastAlertTime` unchanged; after a successful primary
send, `lastAlertTime` is updated iff every warning-notice send back to the
primary chat (triggered by failed secondary sends) also succeeds — an
unguarded warning-send failure skips the update even though the primary
send succeeded. -/
theorem sendRSIAlert_lastAlert_spec (oracle : ℕ → Bool) (chatId : ℤ)
    (channels : List String) (hnd : channels.Nodup) :
    (oracle 0 = false →
      sendRSIAlert oracle chatId channels =
        ⟨[(Target.user chatId, MsgKind.alert)], [], false⟩) ∧
    ((sendRSIAlert oracle chatId channels).lastAlertUpdated = true ↔
      ((Target.user chatId, MsgKind.alert) ∈ (sendRSIAlert oracle chatId channels).delivered ∧
       ∀ w, (Target.user chatId, MsgKind.warning w) ∈
              (sendRSIAlert oracle chatId channels).attempted →
            (Target.user chatId, MsgKind.warning w) ∈
              (sendRSIAlert oracle chatId channels).delivered)) := by
  by_cases h0 : oracle 0 = true
  · constructor
    · intro hf
      rw [h0] at hf
      exact absurd hf (by simp)
    · rw [show sendRSIAlert oracle chatId channels =
          ⟨(Target.user chatId, MsgKind.alert) :: (channelLoop oracle chatId channels 1).attempted,
           (Target.user chatId, MsgKind.alert) :: (channelLoop oracle chatId channels 1).delivered,
           (channelLoop oracle chatId channels 1).completed⟩ from by
        simp only [sendRSIAlert, if_pos h0]]
      dsimp only
      constructor
      · intro hcomp
        refine ⟨List.mem_cons_self _ _, ?_⟩
        intro w hw
        have hw2 : (Target.user chatId, MsgKind.warning w) ∈
            (channelLoop oracle chatId channels 1).attempted := by
          rcases List.mem_cons.mp hw with he | h2
          · exact absurd (congrArg Prod.snd he) (by simp)
          · exact h2
        exact List.mem_cons_of_mem _
          ((channelLoop_completed_iff oracle chatId channels 1 hnd).mp hcomp w hw2)
      · rintro ⟨_, hall⟩
        apply (channelLoop_completed_iff oracle chatId channels 1 hnd).mpr
        intro w hw
        have hd := hall w (List.mem_cons_of_mem _ hw)
        rcases List.mem_cons.mp hd with he | h2
        · exact absurd (congrArg Prod.snd he) (by simp)
        · exact h2
  · have h0f : oracle 0 = false := by
      revert h0
      cases oracle 0 <;> simp
    rw [show sendRSIAlert oracle chatId channels =
        ⟨[(Target.user chatId, MsgKind.alert)], [], false⟩ from by
      simp only [sendRSIAlert, if_neg h0]]
    refine ⟨fun _ => rfl, ?_⟩
    constructor
    · intro h
      exact absurd h (by simp)
    · rintro ⟨hprim, _⟩
      exact absurd hprim (List.not_mem_nil _)

/-- C2 witness: with every send failing, the dispatch attempts only the
primary alert, delivers nothing, and leaves `lastAlertTime` unchanged. -/
theorem sendRSIAlert_lastAlert_witness :
    sendRSIAlert (fun _ => false) 1 ["@a"] =
      ⟨[(Target.user 1, MsgKind.alert)], [], false⟩ :=
  (sendRSIAlert_lastAlert_spec (fun _ => false) 1 ["@a"] (by simp)).1 rfl

/-- C2 counterexample to the claim as stated: only call 0 succeeds, so the
primary alert is delivered, the one secondary send fails, the warning
notice to the primary also fails, the exception reaches the outer catch,
and `lastAlertTime` is NOT updated although the primary send succeeded. -/
theorem sendRSIAlert_lastAlert_cex :
    (Target.user 1, MsgKind.alert) ∈
      (sendRSIAlert (fun k => decide (k = 0)) 1 ["@a"]).delivered ∧
    (sendRSIAlert (fun k => decide (k = 0)) 1 ["@a"]).lastAlertUpdated = false := by
  decide

/-- C3 (amended): in a dispatch where the primary send succeeds and every
warning-notice send succeeds (equivalently, the loop completes and
`lastAlertTime` is updated), every configured secondary destination's send
is attempted, the primary chat receives exactly one warning notice naming
each secondary whose send failed (was not delivered), and no warning for a
delivered secondary or for a string outside the list. -/
theorem sendRSIAlert_secondaries_spec (oracle : ℕ → Bool) (chatId : ℤ)
    (channels : List String) (hnd : channels.Nodup)
    (hcomp : (sendRSIAlert oracle chatId channels).lastAlertUpdated = true) :
    (∀ ch ∈ channels,
      (Target.channel ch, MsgKind.alert) ∈ (sendRSIAlert oracle chatId channels).attempted) ∧
    (∀ ch ∈ channels,
      (sendRSIAlert oracle chatId channels).delivered.count
          (Target.user chatId, MsgKind.warning ch) =
        if (Target.channel ch, MsgKind.alert) ∈ (sendRSIAlert oracle chatId channels).delivered
        then 0 else 1) ∧
    (∀ w, w ∉ channels →
      (sendRSIAlert oracle chatId channels).delivered.count
          (Target.user chatId, MsgKind.warning w) = 0) := by
  by_cases h0 : oracle 0 = true
  · rw [show sendRSIAlert oracle chatId channels =
        ⟨(Target.user chatId, MsgKind.alert) :: (channelLoop oracle chatId channels 1).attempted,
         (Target.user chatId, MsgKind.alert) :: (channelLoop oracle chatId channels 1).delivered,
         (channelLoop oracle chatId channels 1).completed⟩ from by
      simp only [sendRSIAlert, if_pos h0]] at hcomp ⊢
    dsimp only at hcomp ⊢
    obtain ⟨cntA, cntB⟩ := channelLoop_warning_count oracle chatId channels 1 hnd hcomp
    refine ⟨?_, ?_, ?_⟩
    · intro ch hch
      exact List.mem_cons_of_mem _
        (channelLoop_completed_attempts oracle chatId channels 1 hcomp ch hch)
    · intro ch hch
      have h0c := cntA ch hch
      simpa [List.count_cons, List.mem_cons] using h0c
    · intro w hw
      have h0c := cntB w hw
      simpa [List.count_cons] using h0c
  · rw [show sendRSIAlert oracle chatId channels =
        ⟨[(Target.user chatId, MsgKind.alert)], [], false⟩ from by
      simp only [sendRSIAlert, if_neg h0]] at hcomp
    exact absurd hcomp (by simp)

/-- C3 witness: primary succeeds, the first secondary send fails, its
warning notice succeeds, the second secondary is still sent; the warning
count for the failed secondary `@a` matches the theorem's conclusion. -/
theorem sendRSIAlert_secondaries_witness :
    (sendRSIAlert (fun k => decide (k ≠ 1)) 1 ["@a", "@b"]).delivered.count
        (Target.user 1, MsgKind.warning "@a") =
      if (Target.channel "@a", MsgKind.alert) ∈
          (sendRSIAlert (fun k => decide (k ≠ 1)) 1 ["@a", "@b"]).delivered
      then 0 else 1 :=
  ((sendRSIAlert_secondaries_spec (fun k => decide (k ≠ 1)) 1 ["@a", "@b"]
      (by decide) (by decide)).2.1) "@a" (by decide)

/-- C3 counterexample to the claim as stated: only call 0 succeeds; the
primary alert is delivered and the first secondary send fails, but because
the warning send also fails, the other secondary `@b` is never attempted
(so certainly not delivered). -/
theorem sendRSIAlert_secondaries_cex :
    (Target.user 1, MsgKind.alert) ∈
      (sendRSIAlert (fun k => decide (k = 0)) 1 ["@a", "@b"]).delivered ∧
    (Target.channel "@b", MsgKind.alert) ∉
      (sendRSIAlert (fun k => decide (k = 0)) 1 ["@a", "@b"]).attempted := by
  decide
